import Mathlib

/-!
Verification of the access-control core of the Webby forum backend
(`src/components/Homebody.jsx`, Go code: token codec, authentication gate,
ownership checks in the topic/reply handlers, login handler, CORS filter).

Go strings are modelled as `List Char` (all strings reached by the verified
code paths are ASCII, where the byte/char distinction is invisible); Go byte
slices as `List Nat` with values reduced mod 256 where it matters; Go `int` /
`int64` / Unix timestamps as `Int`.  The HMAC-SHA256 digest function (Go
standard library, keyed with the process-wide `jwtSecret`) enters as an
explicit function parameter `mac`, and bcrypt's `CompareHashAndPassword`
as a boolean parameter `bcryptCompare`: the repository's own code treats
both as opaque primitives.
-/

namespace Webby

/-- A Go string, as its list of characters. -/
abbrev Str := List Char

/-! ### `strings` package primitives used by the code -/

/-- `strings.Split(s, sep)` for a single-character separator. -/
def splitOnChar (sep : Char) : Str → List Str
  | [] => [[]]
  | c :: rest =>
    if c = sep then [] :: splitOnChar sep rest
    else
      match splitOnChar sep rest with
      | [] => [[c]]
      | h :: t => (c :: h) :: t

/-- `strings.HasPrefix`. -/
def goHasPrefix (s pre : Str) : Bool := pre.isPrefixOf s

/-- `strings.TrimPrefix`. -/
def goTrimPrefix (s pre : Str) : Str :=
  if pre.isPrefixOf s then s.drop pre.length else s

/-- `strings.TrimRight(s, cutset)` for a single-character cutset: removes
all trailing occurrences of `c`. -/
def goTrimRight (s : Str) (c : Char) : Str :=
  (s.reverse.dropWhile (· = c)).reverse

/-- `strings.TrimSpace`. -/
def goTrimSpace (s : String) : String :=
  String.mk (((s.toList.dropWhile Char.isWhitespace).reverse.dropWhile
    Char.isWhitespace).reverse)

theorem splitOnChar_ne_nil (sep : Char) (s : Str) : splitOnChar sep s ≠ [] := by
  match s with
  | [] => simp [splitOnChar]
  | c :: rest =>
    rw [splitOnChar]
    split
    · simp
    · split <;> simp

theorem splitOnChar_of_not_mem (sep : Char) (s : Str) (h : sep ∉ s) :
    splitOnChar sep s = [s] := by
  match s with
  | [] => rfl
  | c :: rest =>
    have hc : ¬ c = sep := fun hcs => h (hcs ▸ List.mem_cons_self c rest)
    have ih := splitOnChar_of_not_mem sep rest (fun hm => h (List.mem_cons_of_mem c hm))
    rw [splitOnChar, if_neg hc, ih]

theorem splitOnChar_append (sep : Char) (p s : Str) (hp : sep ∉ p) :
    splitOnChar sep (p ++ sep :: s) = p :: splitOnChar sep s := by
  match p with
  | [] => simp [splitOnChar]
  | c :: rest =>
    have hc : ¬ c = sep := fun hcs => hp (hcs ▸ List.mem_cons_self c rest)
    have ih := splitOnChar_append sep rest s (fun hm => hp (List.mem_cons_of_mem c hm))
    rw [List.cons_append, splitOnChar, if_neg hc, ih]

/-- Splitting `p ++ "." ++ s` where neither part contains the separator
recovers exactly the two parts. -/
theorem splitOnChar_two (sep : Char) (p s : Str) (hp : sep ∉ p) (hs : sep ∉ s) :
    splitOnChar sep (p ++ sep :: s) = [p, s] := by
  rw [splitOnChar_append sep p s hp, splitOnChar_of_not_mem sep s hs]

/-! ### `encoding/base64` — `base64.RawURLEncoding` (URL alphabet, no padding) -/

/-- The base64url alphabet used by `base64.RawURLEncoding`. -/
def b64Alphabet : Str :=
  "ABCDEFGHIJKLMNOPQRSTUVWXYZabcdefghijklmnopqrstuvwxyz0123456789-_".toList

/-- The alphabet character for a 6-bit group. -/
def sextetChar (n : Nat) : Char := b64Alphabet.getD (n % 64) 'A'

/-- The 6-bit value of an alphabet character (`none` for characters outside
the alphabet, which `DecodeString` rejects). -/
def sextetVal (c : Char) : Option Nat := b64Alphabet.indexOf? c

/-- `base64.RawURLEncoding.EncodeToString`: bytes to unpadded base64url text.
Inputs are reduced mod 256 (Go bytes). -/
def b64Encode : List Nat → Str
  | [] => []
  | [a] =>
    let a := a % 256
    [sextetChar (a / 4), sextetChar (a % 4 * 16)]
  | [a, b] =>
    let a := a % 256
    let b := b % 256
    [sextetChar (a / 4), sextetChar (a % 4 * 16 + b / 16), sextetChar (b % 16 * 4)]
  | a :: b :: c :: rest =>
    let a := a % 256
    let b := b % 256
    let c := c % 256
    sextetChar (a / 4) :: sextetChar (a % 4 * 16 + b / 16) ::
      sextetChar (b % 16 * 4 + c / 64) :: sextetChar (c % 64) :: b64Encode rest

/-- `base64.RawURLEncoding.DecodeString`: rejects characters outside the
alphabet and a trailing group of one character; like Go's default (non-strict)
mode it ignores unused trailing bits. -/
def b64Decode : Str → Option (List Nat)
  | [] => some []
  | [_] => none
  | [c1, c2] => do
    let s1 ← sextetVal c1
    let s2 ← sextetVal c2
    pure [s1 * 4 + s2 / 16]
  | [c1, c2, c3] => do
    let s1 ← sextetVal c1
    let s2 ← sextetVal c2
    let s3 ← sextetVal c3
    pure [s1 * 4 + s2 / 16, s2 % 16 * 16 + s3 / 4]
  | c1 :: c2 :: c3 :: c4 :: rest => do
    let s1 ← sextetVal c1
    let s2 ← sextetVal c2
    let s3 ← sextetVal c3
    let s4 ← sextetVal c4
    let tail ← b64Decode rest
    pure ((s1 * 4 + s2 / 16) :: (s2 % 16 * 16 + s3 / 4) :: (s3 % 4 * 64 + s4) :: tail)

theorem sextetChar_ne_dot (n : Nat) : sextetChar n ≠ '.' := by
  have h : n % 64 < 64 := Nat.mod_lt _ (by decide)
  have hall : ∀ m, m < 64 → b64Alphabet.getD m 'A' ≠ '.' := by decide
  exact hall _ h

theorem sextetVal_sextetChar (n : Nat) (h : n < 64) : sextetVal (sextetChar n) = some n := by
  have hall : ∀ m, m < 64 → sextetVal (sextetChar m) = some m := by decide
  exact hall n h

/-- The encoder's output never contains the token separator `.`. -/
theorem b64Encode_no_dot (l : List Nat) : '.' ∉ b64Encode l := by
  match l with
  | [] => simp [b64Encode]
  | [a] =>
    simp only [b64Encode, List.mem_cons, List.not_mem_nil, or_false]
    rintro (h | h) <;> exact sextetChar_ne_dot _ h.symm
  | [a, b] =>
    simp only [b64Encode, List.mem_cons, List.not_mem_nil, or_false]
    rintro (h | h | h) <;> exact sextetChar_ne_dot _ h.symm
  | a :: b :: c :: rest =>
    have ih := b64Encode_no_dot rest
    simp only [b64Encode, List.mem_cons]
    rintro (h | h | h | h | h)
    · exact sextetChar_ne_dot _ h.symm
    · exact sextetChar_ne_dot _ h.symm
    · exact sextetChar_ne_dot _ h.symm
    · exact sextetChar_ne_dot _ h.symm
    · exact ih h

/-- Decoding inverts encoding (Go bytes: values mod 256). -/
theorem b64Decode_b64Encode (l : List Nat) :
    b64Decode (b64Encode l) = some (l.map (· % 256)) := by
  match l with
  | [] => rfl
  | [a] =>
    have ha : a % 256 < 256 := Nat.mod_lt _ (by decide)
    have h1 : sextetVal (sextetChar (a % 256 / 4)) = some (a % 256 / 4) :=
      sextetVal_sextetChar _ (by omega)
    have h2 : sextetVal (sextetChar (a % 256 % 4 * 16)) = some (a % 256 % 4 * 16) :=
      sextetVal_sextetChar _ (by omega)
    simp only [b64Encode, b64Decode, h1, h2, Option.bind_eq_bind, Option.some_bind,
      List.map, Option.pure_def, Option.some.injEq, List.cons.injEq, and_true]
    omega
  | [a, b] =>
    have ha : a % 256 < 256 := Nat.mod_lt _ (by decide)
    have hb : b % 256 < 256 := Nat.mod_lt _ (by decide)
    have h1 : sextetVal (sextetChar (a % 256 / 4)) = some (a % 256 / 4) :=
      sextetVal_sextetChar _ (by omega)
    have h2 : sextetVal (sextetChar (a % 256 % 4 * 16 + b % 256 / 16)) =
        some (a % 256 % 4 * 16 + b % 256 / 16) := sextetVal_sextetChar _ (by omega)
    have h3 : sextetVal (sextetChar (b % 256 % 16 * 4)) = some (b % 256 % 16 * 4) :=
      sextetVal_sextetChar _ (by omega)
    simp only [b64Encode, b64Decode, h1, h2, h3, Option.bind_eq_bind, Option.some_bind,
      List.map, Option.pure_def, Option.some.injEq, List.cons.injEq, and_true]
    constructor <;> omega
  | a :: b :: c :: rest =>
    have ha : a % 256 < 256 := Nat.mod_lt _ (by decide)
    have hb : b % 256 < 256 := Nat.mod_lt _ (by decide)
    have hc : c % 256 < 256 := Nat.mod_lt _ (by decide)
    have ih := b64Decode_b64Encode rest
    have h1 : sextetVal (sextetChar (a % 256 / 4)) = some (a % 256 / 4) :=
      sextetVal_sextetChar _ (by omega)
    have h2 : sextetVal (sextetChar (a % 256 % 4 * 16 + b % 256 / 16)) =
        some (a % 256 % 4 * 16 + b % 256 / 16) := sextetVal_sextetChar _ (by omega)
    have h3 : sextetVal (sextetChar (b % 256 % 16 * 4 + c % 256 / 64)) =
        some (b % 256 % 16 * 4 + c % 256 / 64) := sextetVal_sextetChar _ (by omega)
    have h4 : sextetVal (sextetChar (c % 256 % 64)) = some (c % 256 % 64) :=
      sextetVal_sextetChar _ (by omega)
    have hsplit : b64Decode (b64Encode (a :: b :: c :: rest)) =
        b64Decode (sextetChar (a % 256 / 4) :: sextetChar (a % 256 % 4 * 16 + b % 256 / 16) ::
          sextetChar (b % 256 % 16 * 4 + c % 256 / 64) :: sextetChar (c % 256 % 64) ::
          b64Encode rest) := rfl
    rw [hsplit, b64Decode]
    simp only [h1, h2, h3, h4, Option.bind_eq_bind, Option.some_bind, ih,
      List.map, Option.pure_def, Option.some.injEq, List.cons.injEq, and_true]
    refine ⟨by omega, by omega, by omega⟩

/-! ### Decimal formatting and scanning of integers

`encoding/json` renders the two integer fields of the token payload in
plain decimal and reads them back.  The fuel parameter (bounded by the
number itself) keeps the recursion structural. -/

/-- The ASCII digit for `d < 10`. -/
def digitChar (d : Nat) : Char := Char.ofNat (48 + d % 10)

def isDigitChar (c : Char) : Bool := 48 ≤ c.toNat && c.toNat ≤ 57

def digitVal (c : Char) : Nat := c.toNat - 48

def natCharsAux : Nat → Nat → Str
  | 0, _ => []
  | fuel + 1, n =>
    if n < 10 then [digitChar n]
    else natCharsAux fuel (n / 10) ++ [digitChar (n % 10)]

/-- The decimal digits of `n`, most significant first. -/
def natChars (n : Nat) : Str := natCharsAux (n + 1) n

/-- The decimal rendering of an integer (as `encoding/json` emits it). -/
def intChars (i : Int) : Str :=
  if i < 0 then '-' :: natChars (-i).toNat else natChars i.toNat

/-- Consume a maximal run of digits, accumulating their value. -/
def parseDigits : Str → Nat → Nat × Str
  | [], acc => (acc, [])
  | c :: rest, acc =>
    if isDigitChar c then parseDigits rest (acc * 10 + digitVal c) else (acc, c :: rest)

/-- Scan the digits that must follow a leading minus sign. -/
def parseNegTail : Str → Option (Int × Str)
  | [] => none
  | c2 :: rest2 =>
    if isDigitChar c2 then
      let p := parseDigits rest2 (digitVal c2)
      some (-(p.1 : Int), p.2)
    else none

/-- Scan an optionally-signed decimal integer off the front of the input. -/
def parseIntChars : Str → Option (Int × Str)
  | [] => none
  | c :: rest =>
    if c = '-' then parseNegTail rest
    else if isDigitChar c then
      let p := parseDigits rest (digitVal c)
      some ((p.1 : Int), p.2)
    else none

theorem digitChar_facts (d : Nat) (h : d < 10) :
    isDigitChar (digitChar d) = true ∧ digitVal (digitChar d) = d ∧
      (digitChar d).toNat < 256 ∧ digitChar d ≠ '-' := by
  have hall : ∀ m, m < 10 → isDigitChar (digitChar m) = true ∧ digitVal (digitChar m) = m ∧
      (digitChar m).toNat < 256 ∧ digitChar m ≠ '-' := by decide
  exact hall d h

theorem natCharsAux_head (fuel n : Nat) (h : n < fuel) :
    ∃ c t, natCharsAux fuel n = c :: t ∧ isDigitChar c = true := by
  match fuel with
  | f + 1 =>
    rw [natCharsAux]
    by_cases h10 : n < 10
    · exact ⟨digitChar n, [], by rw [if_pos h10], (digitChar_facts n h10).1⟩
    · have hrec : n / 10 < f := by omega
      obtain ⟨c, t, hct, hdig⟩ := natCharsAux_head f (n / 10) hrec
      exact ⟨c, t ++ [digitChar (n % 10)], by rw [if_neg h10, hct]; rfl, hdig⟩

theorem natChars_head (n : Nat) :
    ∃ c t, natChars n = c :: t ∧ isDigitChar c = true :=
  natCharsAux_head (n + 1) n (Nat.lt_succ_self n)

theorem parseDigits_natCharsAux (fuel n : Nat) (h : n < fuel) (rest : Str) (acc : Nat) :
    parseDigits (natCharsAux fuel n ++ rest) acc =
      parseDigits rest (acc * 10 ^ (natCharsAux fuel n).length + n) := by
  match fuel with
  | f + 1 =>
    rw [natCharsAux]
    by_cases h10 : n < 10
    · rw [if_pos h10]
      simp only [List.cons_append, List.nil_append, parseDigits,
        (digitChar_facts n h10).1, if_true, (digitChar_facts n h10).2.1,
        List.length_cons, List.length_nil]
      ring_nf
      simp
    · rw [if_neg h10]
      have hrec : n / 10 < f := by omega
      have hm10 : n % 10 < 10 := Nat.mod_lt _ (by omega)
      rw [List.append_assoc, List.cons_append, List.nil_append,
        parseDigits_natCharsAux f (n / 10) hrec]
      simp only [parseDigits, (digitChar_facts _ hm10).1, if_true,
        (digitChar_facts _ hm10).2.1, List.length_append, List.length_cons,
        List.length_nil]
      have : (acc * 10 ^ (natCharsAux f (n / 10)).length + n / 10) * 10 + n % 10 =
          acc * 10 ^ ((natCharsAux f (n / 10)).length + (0 + 1)) + n := by
        rw [pow_succ]
        have := Nat.div_add_mod n 10
        ring_nf
        omega
      rw [this]

theorem parseDigits_stop (rest : Str) (acc : Nat)
    (h : ∀ c, rest.head? = some c → isDigitChar c = false) :
    parseDigits rest acc = (acc, rest) := by
  match rest with
  | [] => rfl
  | c :: t =>
    have hc : isDigitChar c = false := h c rfl
    simp [parseDigits, hc]

/-- Reading back the decimal rendering of `i` recovers `i` and leaves the
remainder (which must not begin with a digit) untouched. -/
theorem parseIntChars_intChars (i : Int) (rest : Str)
    (h : ∀ c, rest.head? = some c → isDigitChar c = false) :
    parseIntChars (intChars i ++ rest) = some (i, rest) := by
  by_cases hneg : i < 0
  · rw [intChars, if_pos hneg]
    obtain ⟨c, t, hct, hdig⟩ := natChars_head (-i).toNat
    have hkey : parseDigits (natChars (-i).toNat ++ rest) 0 = ((-i).toNat, rest) := by
      rw [natChars, parseDigits_natCharsAux _ _ (Nat.lt_succ_self _), parseDigits_stop rest _ h]
      simp
    rw [hct] at hkey
    have hstep : parseDigits ((c :: t) ++ rest) 0 = parseDigits (t ++ rest) (digitVal c) := by
      simp [parseDigits, hdig]
    rw [hstep] at hkey
    rw [List.cons_append, parseIntChars, if_pos rfl, hct, List.cons_append, parseNegTail]
    simp only [hdig, if_true, hkey]
    have hi : -(((-i).toNat : Nat) : Int) = i := by omega
    rw [hi]
  · rw [intChars, if_neg hneg]
    obtain ⟨c, t, hct, hdig⟩ := natChars_head i.toNat
    have hkey : parseDigits (natChars i.toNat ++ rest) 0 = (i.toNat, rest) := by
      rw [natChars, parseDigits_natCharsAux _ _ (Nat.lt_succ_self _), parseDigits_stop rest _ h]
      simp
    rw [hct] at hkey
    have hstep : parseDigits ((c :: t) ++ rest) 0 = parseDigits (t ++ rest) (digitVal c) := by
      simp [parseDigits, hdig]
    rw [hstep] at hkey
    have hcm : c ≠ '-' := by
      intro hcm
      rw [hcm] at hdig
      exact absurd hdig (by decide)
    rw [hct, List.cons_append, parseIntChars, if_neg hcm]
    simp only [hdig, if_true, hkey]
    have hi : ((i.toNat : Nat) : Int) = i := by omega
    rw [hi]

theorem natCharsAux_toNat_lt (fuel n : Nat) :
    ∀ c ∈ natCharsAux fuel n, c.toNat < 256 := by
  match fuel with
  | 0 => simp [natCharsAux]
  | f + 1 =>
    rw [natCharsAux]
    by_cases h10 : n < 10
    · rw [if_pos h10]
      intro c hc
      rw [List.mem_singleton] at hc
      exact hc ▸ (digitChar_facts n h10).2.2.1
    · rw [if_neg h10]
      intro c hc
      rcases List.mem_append.mp hc with hm | hm
      · exact natCharsAux_toNat_lt f (n / 10) c hm
      · rw [List.mem_singleton] at hm
        exact hm ▸ (digitChar_facts (n % 10) (Nat.mod_lt _ (by omega))).2.2.1

theorem intChars_toNat_lt (i : Int) : ∀ c ∈ intChars i, c.toNat < 256 := by
  rw [intChars]
  split
  · intro c hc
    rcases List.mem_cons.mp hc with hm | hm
    · rw [hm]; decide
    · exact natCharsAux_toNat_lt _ _ c hm
  · exact natCharsAux_toNat_lt _ _

/-! ### `encoding/json` for the token payload

`tokenPayload` is the struct with fields `UserID int` (tag `uid`) and
`Exp int64` (tag `exp`).  `json.Marshal` renders it as an object with those
two integer fields in struct order and no whitespace; `json.Unmarshal` is
modelled as a field-order-independent reader of objects whose values are
integers (the only shape a signature-checked payload can have), ignoring
unknown keys and leaving absent fields at their zero value, and rejecting
trailing data after the closing brace. -/

def lbraceChar : Char := Char.ofNat 123

def rbraceChar : Char := Char.ofNat 125

def quoteChar : Char := Char.ofNat 34

/-- The claim set carried by a token: subject identifier and expiry. -/
structure tokenPayload where
  UserID : Int
  Exp : Int
deriving DecidableEq, Repr

/-- `json.Marshal` of a `tokenPayload`. -/
def jsonMarshalPayload (uid exp : Int) : Str :=
  lbraceChar :: quoteChar :: 'u' :: 'i' :: 'd' :: quoteChar :: ':' :: intChars uid
    ++ ',' :: quoteChar :: 'e' :: 'x' :: 'p' :: quoteChar :: ':' :: intChars exp
    ++ [rbraceChar]

/-- Read a quoted key: the characters between the opening quote (already
consumed by the caller) and the closing quote. -/
def parseKeyAux : Str → Str → Option (Str × Str)
  | [], _ => none
  | c :: rest, acc =>
    if c = quoteChar then some (acc.reverse, rest) else parseKeyAux rest (c :: acc)

def parseKey : Str → Option (Str × Str)
  | [] => none
  | c :: rest => if c = quoteChar then parseKeyAux rest [] else none

/-- Store a decoded field into the (uid?, exp?) accumulator; unknown keys
are ignored, a repeated key keeps the later value (as `encoding/json` does). -/
def applyField (pl : Option Int × Option Int) (key : Str) (v : Int) :
    Option Int × Option Int :=
  if key = ['u', 'i', 'd'] then (some v, pl.2)
  else if key = ['e', 'x', 'p'] then (pl.1, some v)
  else pl

/-- Read `"key":int` pairs separated by commas up to the closing brace,
which must end the input.  The fuel only bounds the recursion; every call
consumes at least one character, so `length + 1` can never run out. -/
def parsePairs : Nat → Str → (Option Int × Option Int) → Option (Option Int × Option Int)
  | 0, _, _ => none
  | fuel + 1, s, pl =>
    match parseKey s with
    | none => none
    | some (key, rest1) =>
      match rest1 with
      | [] => none
      | c1 :: rest2 =>
        if c1 = ':' then
          match parseIntChars rest2 with
          | none => none
          | some (v, rest3) =>
            match rest3 with
            | [] => none
            | c2 :: rest4 =>
              if c2 = rbraceChar then
                if rest4 = [] then some (applyField pl key v) else none
              else if c2 = ',' then parsePairs fuel rest4 (applyField pl key v)
              else none
        else none

/-- Assemble the payload from the decoded fields; a field that never
appeared keeps its Go zero value. -/
def payloadOfFields : Option (Option Int × Option Int) → Option tokenPayload
  | none => none
  | some (u, e) => some ⟨u.getD 0, e.getD 0⟩

/-- `json.Unmarshal` into a `tokenPayload` (restricted as described above).
The fuel `rest.length + 2` is one more than the worst case, so it never
runs out. -/
def unmarshalPayload : Str → Option tokenPayload
  | [] => none
  | c :: rest =>
    if c = lbraceChar then
      if rest = [rbraceChar] then some ⟨0, 0⟩
      else payloadOfFields (parsePairs (rest.length + 2) rest (none, none))
    else none

theorem parseKeyAux_through (k : Str) (rest : Str) (acc : Str)
    (hk : quoteChar ∉ k) :
    parseKeyAux (k ++ quoteChar :: rest) acc = some ((acc.reverse ++ k), rest) := by
  match k with
  | [] => simp [parseKeyAux]
  | c :: t =>
    have hc : ¬ c = quoteChar := fun hcs => hk (hcs ▸ List.mem_cons_self c t)
    have ih := parseKeyAux_through t rest (c :: acc) (fun hm => hk (List.mem_cons_of_mem c hm))
    rw [List.cons_append, parseKeyAux, if_neg hc, ih]
    simp

theorem parseKey_through (k : Str) (rest : Str) (hk : quoteChar ∉ k) :
    parseKey (quoteChar :: k ++ quoteChar :: rest) = some (k, rest) := by
  rw [List.cons_append, parseKey, if_pos rfl, parseKeyAux_through k rest [] hk]
  simp

theorem parsePairs_marshal (uid exp : Int) (f : Nat) :
    parsePairs (f + 2)
      (quoteChar :: 'u' :: 'i' :: 'd' :: quoteChar :: ':' :: intChars uid
        ++ ',' :: quoteChar :: 'e' :: 'x' :: 'p' :: quoteChar :: ':' :: intChars exp
        ++ [rbraceChar]) (none, none) = some (some uid, some exp) := by
  have hpk1 : parseKey (quoteChar :: 'u' :: 'i' :: 'd' :: quoteChar :: ':' :: intChars uid
      ++ ',' :: quoteChar :: 'e' :: 'x' :: 'p' :: quoteChar :: ':' :: intChars exp
      ++ [rbraceChar]) = some (['u', 'i', 'd'],
        ':' :: (intChars uid ++ ',' :: quoteChar :: 'e' :: 'x' :: 'p' :: quoteChar :: ':'
          :: (intChars exp ++ [rbraceChar]))) := by
    have h := parseKey_through ['u', 'i', 'd']
      (':' :: (intChars uid ++ ',' :: quoteChar :: 'e' :: 'x' :: 'p' :: quoteChar :: ':'
        :: (intChars exp ++ [rbraceChar]))) (by decide)
    simpa using h
  have hpi1 : parseIntChars (intChars uid
      ++ ',' :: quoteChar :: 'e' :: 'x' :: 'p' :: quoteChar :: ':'
        :: (intChars exp ++ [rbraceChar])) = some (uid,
      ',' :: quoteChar :: 'e' :: 'x' :: 'p' :: quoteChar :: ':'
        :: (intChars exp ++ [rbraceChar])) := by
    exact parseIntChars_intChars uid _ (by intro c hc; simp at hc; subst hc; decide)
  have hpk2 : parseKey (quoteChar :: 'e' :: 'x' :: 'p' :: quoteChar :: ':'
      :: (intChars exp ++ [rbraceChar])) =
        some (['e', 'x', 'p'], ':' :: (intChars exp ++ [rbraceChar])) := by
    have h := parseKey_through ['e', 'x', 'p']
      (':' :: (intChars exp ++ [rbraceChar])) (by decide)
    simpa using h
  have hpi2 : parseIntChars (intChars exp ++ [rbraceChar]) = some (exp, [rbraceChar]) := by
    exact parseIntChars_intChars exp _ (by intro c hc; simp at hc; subst hc; decide)
  have ha1 : applyField (none, none) ['u', 'i', 'd'] uid = (some uid, none) := by
    rw [applyField, if_pos rfl]
  have ha2 : applyField (some uid, none) ['e', 'x', 'p'] exp = (some uid, some exp) := by
    rw [applyField, if_neg (by decide), if_pos rfl]
  rw [show f + 2 = (f + 1) + 1 from rfl, parsePairs]
  rw [hpk1]
  simp only [if_pos rfl]
  rw [hpi1]
  have hc1 : ¬ (',' = rbraceChar) := by decide
  simp only [if_neg hc1, if_pos rfl, ha1]
  rw [parsePairs]
  rw [hpk2]
  simp only [if_pos rfl]
  rw [hpi2]
  simp only [if_pos rfl, ha2]
  simp

/-- `json.Unmarshal ∘ json.Marshal` is the identity on token payloads. -/
theorem unmarshalPayload_marshal (uid exp : Int) :
    unmarshalPayload (jsonMarshalPayload uid exp) = some ⟨uid, exp⟩ := by
  have hne : ¬ (quoteChar :: 'u' :: 'i' :: 'd' :: quoteChar :: ':' :: intChars uid
      ++ ',' :: quoteChar :: 'e' :: 'x' :: 'p' :: quoteChar :: ':' :: intChars exp
      ++ [rbraceChar] = [rbraceChar]) := by
    intro h
    have := congrArg List.head? h
    simp at this
    exact absurd this (by decide)
  have hcons : ∀ (c : Char) (rest : Str), unmarshalPayload (c :: rest) =
      if c = lbraceChar then
        if rest = [rbraceChar] then some ⟨0, 0⟩
        else payloadOfFields (parsePairs (rest.length + 2) rest (none, none))
      else none := fun _ _ => rfl
  rw [jsonMarshalPayload, List.cons_append, List.cons_append, hcons]
  rw [if_pos rfl, if_neg hne, parsePairs_marshal, payloadOfFields]
  rfl

/-! ### Token codec (`sign`, `makeToken`, `parseToken`)

`time.Now().Unix()` is passed in explicitly: `makeToken` receives the
issuance instant, `parseToken` the verification instant.  The digest
function `mac` stands for `hmac.New(sha256.New, jwtSecret); mac.Write(data);
mac.Sum(nil)` — a fixed keyed function of the signed text. -/

/-- `[]byte(s)` for the ASCII strings this code signs and decodes. -/
def strBytes (s : Str) : List Nat := s.map Char.toNat

/-- The string carrying the given (byte) character codes. -/
def bytesStr (l : List Nat) : Str := l.map Char.ofNat

/-- The result of `parseToken` — Go's `(int, error)` pair. -/
inductive ParseResult where
  | ok (userID : Int)
  | error (msg : String)
deriving DecidableEq, Repr

/-- `sign(data)`: base64url of the HMAC-SHA256 digest of `data`. -/
def sign (mac : Str → List Nat) (data : Str) : Str := b64Encode (mac data)

/-- `makeToken(userID)`: serialize `{uid, exp = now + 24h}`, base64url it,
and append the dot-separated signature.  (`json.Marshal` cannot fail on
this struct, so the Go error branch is dead.) -/
def makeToken (mac : Str → List Nat) (now : Int) (userID : Int) : Str :=
  let pl := jsonMarshalPayload userID (now + 24 * 60 * 60)
  let p := b64Encode (strBytes pl)
  p ++ '.' :: sign mac p

/-- `hmac.Equal`: constant-time comparison of two byte slices, extensionally
their equality. -/
def hmacEqual (a b : List Nat) : Bool := a == b

/-- Steps 3–4 of `parseToken`: deserialization of the decoded payload
bytes, then the freshness check. -/
def checkPayload (now : Int) : Option tokenPayload → ParseResult
  | none => .error "bad payload json"
  | some pl => if now > pl.Exp then .error "expired" else .ok pl.UserID

/-- Step 3 of `parseToken`: base64 decoding of the claims segment. -/
def decodePayload (now : Int) : Option (List Nat) → ParseResult
  | none => .error "bad payload"
  | some pb => checkPayload now (unmarshalPayload (bytesStr pb))

/-- Steps 1–2 of `parseToken`: exactly two dot-separated segments, and the
recomputed signature over the first must equal the second (checked before
any decoding of the claims). -/
def parseTokenParts (mac : Str → List Nat) (now : Int) : List Str → ParseResult
  | [p, sig] =>
    if ¬ hmacEqual (strBytes (sign mac p)) (strBytes sig) then .error "bad signature"
    else decodePayload now (b64Decode p)
  | _ => .error "bad token"

/-- `parseToken(tok)`: split on `.`, check the signature over the first
segment, then base64-decode and deserialize it, then check expiry. -/
def parseToken (mac : Str → List Nat) (now : Int) (tok : Str) : ParseResult :=
  parseTokenParts mac now (splitOnChar '.' tok)

theorem parseTokenParts_pair (mac : Str → List Nat) (now : Int) (p sig : Str) :
    parseTokenParts mac now [p, sig] =
      if ¬ hmacEqual (strBytes (sign mac p)) (strBytes sig) then .error "bad signature"
      else decodePayload now (b64Decode p) := rfl

theorem strBytes_inj {a b : Str} (h : strBytes a = strBytes b) : a = b := by
  have : Function.Injective Char.toNat := by
    intro c1 c2 hc
    exact Char.eq_of_val_eq (UInt32.ext hc)
  exact List.map_injective_iff.mpr this h

theorem hmacEqual_strBytes (a b : Str) : hmacEqual (strBytes a) (strBytes b) = true ↔ a = b := by
  constructor
  · intro h
    exact strBytes_inj (by simpa [hmacEqual] using h)
  · intro h
    simp [hmacEqual, h]

theorem bytesStr_strBytes (s : Str) : bytesStr (strBytes s) = s := by
  simp only [bytesStr, strBytes, List.map_map]
  have : (Char.ofNat ∘ Char.toNat) = id := by
    funext c
    exact Char.ofNat_toNat c
  rw [this, List.map_id]

theorem jsonMarshalPayload_toNat_lt (uid exp : Int) :
    ∀ c ∈ jsonMarshalPayload uid exp, c.toNat < 256 := by
  intro c hc
  rw [jsonMarshalPayload] at hc
  simp only [List.mem_append, List.mem_cons] at hc
  rcases hc with ((h | h | h | h | h | h | h | h) | (h | h | h | h | h | h | h | h)) | h
  all_goals first
    | (rw [h]; decide)
    | (exact intChars_toNat_lt _ c h)
    | (rcases h with h | h
       · rw [h]; decide
       · simp at h)

/-- The payload bytes of a token survive the base64 round trip intact. -/
theorem b64Decode_payload (uid exp : Int) :
    b64Decode (b64Encode (strBytes (jsonMarshalPayload uid exp))) =
      some (strBytes (jsonMarshalPayload uid exp)) := by
  rw [b64Decode_b64Encode]
  have hmod : ∀ x ∈ strBytes (jsonMarshalPayload uid exp), x % 256 = x := by
    intro x hx
    rw [strBytes, List.mem_map] at hx
    obtain ⟨c, hc, rfl⟩ := hx
    exact Nat.mod_eq_of_lt (jsonMarshalPayload_toNat_lt uid exp c hc)
  have hmap : (strBytes (jsonMarshalPayload uid exp)).map (· % 256) =
      strBytes (jsonMarshalPayload uid exp) := by
    conv_rhs => rw [← List.map_id (strBytes (jsonMarshalPayload uid exp))]
    exact List.map_congr_left hmod
  rw [hmap]

/-- Master lemma: verifying a freshly issued token gives the subject back,
except when the verification instant is past the stored expiry. -/
theorem parseToken_makeToken (mac : Str → List Nat) (userID now t : Int) :
    parseToken mac t (makeToken mac now userID) =
      if t > now + 24 * 60 * 60 then .error "expired" else .ok userID := by
  simp only [makeToken, parseToken, sign]
  rw [splitOnChar_two '.' _ _ (b64Encode_no_dot _) (b64Encode_no_dot _)]
  rw [parseTokenParts_pair]
  rw [if_neg (by simp [sign, (hmacEqual_strBytes _ _).mpr rfl])]
  rw [b64Decode_payload, decodePayload, bytesStr_strBytes, unmarshalPayload_marshal,
    checkPayload]

/-! ### Authentication gate (`requireAuth`) -/

/-- An HTTP response as the handlers produce it: the status code and the
message written by `http.Error` (success bodies, which are JSON renderings
of database rows, are elided as `""`). -/
structure Resp where
  status : Nat
  body : String
deriving DecidableEq, Repr

def bearerPrefix : Str := "Bearer ".toList

/-- `requireAuth(next)`: reject with 401 unless the `Authorization` header
(empty string when absent) carries `Bearer ` plus a token that verifies;
on success bind the subject id into the request context and run the wrapped
handler. -/
def requireAuth (mac : Str → List Nat) (now : Int) (next : Int → Resp) (auth : Str) : Resp :=
  if auth == [] || !(goHasPrefix auth bearerPrefix) then ⟨401, "Unauthorized"⟩
  else
    match parseToken mac now (goTrimPrefix auth bearerPrefix) with
    | .error _ => ⟨401, "Unauthorized"⟩
    | .ok uid => next uid

/-! ### CORS gate (`cors`) -/

inductive Method where
  | GET
  | POST
  | PUT
  | DELETE
  | OPTIONS
deriving DecidableEq, Repr

/-- The environment configuration the gate reads: `FRONTEND_ORIGIN` and
`FRONTEND_ORIGIN_2` (empty string when unset). -/
structure CorsConfig where
  FRONTEND_ORIGIN : Str
  FRONTEND_ORIGIN_2 : Str
deriving DecidableEq, Repr

/-- What the gate did with the request. -/
inductive CorsOutcome where
  | rejected (status : Nat) (body : String)
  | preflightOK
  | pass
deriving DecidableEq, Repr

/-- The `Access-Control-*` headers set for an allowed origin. -/
def corsHeaders (origin : Str) : List (String × String) :=
  [("Access-Control-Allow-Origin", String.mk origin), ("Vary", "Origin"),
   ("Access-Control-Allow-Methods", "GET, POST, PUT, DELETE, OPTIONS"),
   ("Access-Control-Allow-Headers", "Content-Type, Authorization")]

/-- The allow decision of `cors`, on the already-trimmed strings. -/
def corsAllowed (origin allowed1 allowed2 : Str) : Bool :=
  origin != [] && (origin == allowed1 || (allowed2 != [] && origin == allowed2))

/-- The `cors` middleware: trim trailing slashes off the declared `Origin`
header (empty when absent) and both configured origins, compare exactly,
attach the `Access-Control-*` headers for an allowed origin, answer
preflights directly, reject disallowed origins with 403, and otherwise set
`Content-Type` and forward. Returns the headers written and the outcome. -/
def cors (cfg : CorsConfig) (method : Method) (originHeader : Str) :
    List (String × String) × CorsOutcome :=
  let origin := goTrimRight originHeader '/'
  let allowed1 := goTrimRight cfg.FRONTEND_ORIGIN '/'
  let allowed2 := goTrimRight cfg.FRONTEND_ORIGIN_2 '/'
  let isAllowed := corsAllowed origin allowed1 allowed2
  let hdrs : List (String × String) :=
    if origin != [] && isAllowed then corsHeaders origin else []
  if method = .OPTIONS then
    if !isAllowed then (hdrs, .rejected 403 ("CORS blocked for origin: " ++ String.mk origin))
    else (hdrs, .preflightOK)
  else if origin != [] && !isAllowed then
    (hdrs, .rejected 403 ("CORS blocked for origin: " ++ String.mk origin))
  else
    (hdrs ++ [("Content-Type", "application/json")], .pass)

/-! ### Database model and the mutating handlers

The persistence layer is a straight-line relational store: `id` is the
primary key, `SELECT user_id ... WHERE id=$1` reads the first (unique)
matching row, `UPDATE`/`DELETE ... WHERE id=$1` rewrite or drop every
matching row. -/

structure TopicRow where
  id : Int
  title : String
  content : String
  user_id : Int
deriving DecidableEq, Repr

structure ReplyRow where
  id : Int
  topic_id : Int
  content : String
  user_id : Int
deriving DecidableEq, Repr

structure DB where
  topics : List TopicRow
  replies : List ReplyRow
deriving DecidableEq, Repr

def findTopic (db : DB) (id : Int) : Option TopicRow :=
  db.topics.find? (fun row => row.id == id)

def findReply (db : DB) (id : Int) : Option ReplyRow :=
  db.replies.find? (fun row => row.id == id)

/-- `SELECT user_id FROM topics WHERE id=$1`. -/
def topicOwner (db : DB) (id : Int) : Option Int := (findTopic db id).map (·.user_id)

/-- `SELECT user_id FROM replies WHERE id=$1`. -/
def replyOwner (db : DB) (id : Int) : Option Int := (findReply db id).map (·.user_id)

/-- `UPDATE topics SET title=$1, content=$2 WHERE id=$3`. -/
def updateTopic (db : DB) (id : Int) (title content : String) : DB :=
  let rows := db.topics.map (fun row =>
    if row.id == id then { row with title := title, content := content } else row)
  { db with topics := rows }

/-- `DELETE FROM topics WHERE id=$1`. -/
def deleteTopic (db : DB) (id : Int) : DB :=
  { db with topics := db.topics.filter (fun row => !(row.id == id)) }

/-- `UPDATE replies SET content=$1 WHERE id=$2`. -/
def updateReply (db : DB) (id : Int) (content : String) : DB :=
  let rows := db.replies.map (fun row =>
    if row.id == id then { row with content := content } else row)
  { db with replies := rows }

/-- `DELETE FROM replies WHERE id=$1`. -/
def deleteReply (db : DB) (id : Int) : DB :=
  { db with replies := db.replies.filter (fun row => !(row.id == id)) }

/-- The JSON body of a topic `PUT` (decoded; `none` models invalid JSON). -/
structure TopicPutBody where
  title : String
  content : String
deriving DecidableEq, Repr

/-- The JSON body of a reply `PUT`. -/
structure ReplyPutBody where
  content : String
deriving DecidableEq, Repr

/-- `topicByIDHandler` (the id already parsed off the path; `uid` is
`getUserID(r)`, zero when no identity was bound).  Returns the response and
the resulting database. -/
def topicByIDHandler (db : DB) (method : Method) (uid : Int) (id : Int)
    (body : Option TopicPutBody) : Resp × DB :=
  match method with
  | .GET =>
    match findTopic db id with
    | none => (⟨404, "Topic not found"⟩, db)
    | some _ => (⟨200, ""⟩, db)
  | .PUT =>
    if uid = 0 then (⟨401, "Unauthorized"⟩, db)
    else
      match body with
      | none => (⟨400, "Invalid JSON"⟩, db)
      | some payload =>
        match topicOwner db id with
        | none => (⟨404, "Topic not found"⟩, db)
        | some ownerID =>
          if uid ≠ ownerID then (⟨403, "Forbidden"⟩, db)
          else
            let db2 := updateTopic db id payload.title payload.content
            match findTopic db2 id with
            | none => (⟨500, ""⟩, db2)
            | some _ => (⟨200, ""⟩, db2)
  | .DELETE =>
    if uid = 0 then (⟨401, "Unauthorized"⟩, db)
    else
      match topicOwner db id with
      | none => (⟨404, "Topic not found"⟩, db)
      | some ownerID =>
        if uid ≠ ownerID then (⟨403, "Forbidden"⟩, db)
        else (⟨204, ""⟩, deleteTopic db id)
  | _ => (⟨405, "Method not allowed"⟩, db)

/-- `replyByIDHandler` (id parsed off the path; the zero-uid check sits in
front of the method switch in the source). -/
def replyByIDHandler (db : DB) (method : Method) (uid : Int) (id : Int)
    (body : Option ReplyPutBody) : Resp × DB :=
  if uid = 0 then (⟨401, "Unauthorized"⟩, db)
  else
    match method with
    | .PUT =>
      match body with
      | none => (⟨400, "Invalid JSON"⟩, db)
      | some payload =>
        if goTrimSpace payload.content = "" then (⟨400, "content required"⟩, db)
        else
          match replyOwner db id with
          | none => (⟨404, "Reply not found"⟩, db)
          | some ownerID =>
            if uid ≠ ownerID then (⟨403, "Forbidden"⟩, db)
            else (⟨200, ""⟩, updateReply db id payload.content)
    | .DELETE =>
      match replyOwner db id with
      | none => (⟨404, "Reply not found"⟩, db)
      | some ownerID =>
        if uid ≠ ownerID then (⟨403, "Forbidden"⟩, db)
        else (⟨204, ""⟩, deleteReply db id)
    | _ => (⟨405, "Method not allowed"⟩, db)

/-! ### Login handler -/

structure UserRow where
  id : Int
  username : String
  email : String
  avatar_url : Option String
  password_hash : String
deriving DecidableEq, Repr

/-- The decoded login request body. -/
structure LoginRequest where
  Email : String
  Password : String
deriving DecidableEq, Repr

/-- `SELECT ... FROM users WHERE email=$1`. -/
def findUserByEmail (users : List UserRow) (email : String) : Option UserRow :=
  users.find? (fun u => u.email == email)

/-- The credential check and response of `loginHandler` after the account
lookup: `bcryptCompare hash password` models
`bcrypt.CompareHashAndPassword == nil`. -/
def loginCheck (bcryptCompare : String → String → Bool) (mac : Str → List Nat)
    (now : Int) (req : LoginRequest) : Option UserRow → Resp
  | none => ⟨401, "Invalid email or password"⟩
  | some u =>
    if !(bcryptCompare u.password_hash req.Password) then
      ⟨401, "Invalid email or password"⟩
    else ⟨200, String.mk (makeToken mac now u.id)⟩

/-- `loginHandler`: decode the body, require both fields, look the account
up by email, check the password against the stored bcrypt digest, and on
success answer with a fresh token. -/
def loginHandler (bcryptCompare : String → String → Bool) (mac : Str → List Nat)
    (now : Int) (users : List UserRow) : Option LoginRequest → Resp
  | none => ⟨400, "Invalid JSON"⟩
  | some req =>
    if req.Email == "" || req.Password == "" then ⟨400, "Email and password required"⟩
    else loginCheck bcryptCompare mac now req (findUserByEmail users req.Email)

/-! ### Helper lemmas shared by the claim theorems -/

/-- The encoded-claims segment of a token issued at `now` for `userID`. -/
def claimsSegment (now userID : Int) : Str :=
  b64Encode (strBytes (jsonMarshalPayload userID (now + 24 * 60 * 60)))

/-- The encoded-signature segment of that token. -/
def sigSegment (mac : Str → List Nat) (now userID : Int) : Str :=
  sign mac (claimsSegment now userID)

theorem makeToken_parts (mac : Str → List Nat) (now userID : Int) :
    makeToken mac now userID = claimsSegment now userID ++ '.' :: sigSegment mac now userID :=
  rfl

/-- `List.set` with a non-dot character cannot introduce the separator. -/
theorem not_dot_set (l : Str) (i : Nat) (c : Char) (hl : '.' ∉ l) (hc : c ≠ '.') :
    '.' ∉ l.set i c := by
  intro hmem
  rcases List.mem_or_eq_of_mem_set hmem with h | h
  · exact hl h
  · exact hc h.symm

/-- Any two-segment token whose recomputed signature does not equal its
second segment is rejected as `bad signature` — whatever the first segment
holds (in particular it is never base64-decoded or deserialized). -/
theorem parseToken_mismatch (mac : Str → List Nat) (t : Int) (p sig : Str)
    (hp : '.' ∉ p) (hs : '.' ∉ sig) (hmis : sign mac p ≠ sig) :
    parseToken mac t (p ++ '.' :: sig) = .error "bad signature" := by
  rw [parseToken, splitOnChar_two '.' p sig hp hs, parseTokenParts_pair,
    if_pos (fun h => hmis ((hmacEqual_strBytes _ _).mp h))]

/-- `b64Encode` is injective up to byte masking: equal encodings force
equal masked byte strings. -/
theorem b64Encode_inj_mod (x y : List Nat) (h : b64Encode x = b64Encode y) :
    x.map (· % 256) = y.map (· % 256) := by
  have hx := b64Decode_b64Encode x
  have hy := b64Decode_b64Encode y
  rw [h, hy] at hx
  exact (Option.some.injEq _ _).mp hx.symm

/-! ### The claims -/

/-- **C1** Token round-trip: for every subject identifier, verifying a token
immediately after issuance (same `mac`, i.e. same signing secret, and a
verification instant not past the 24-hour expiry) succeeds and returns
exactly that identifier. -/
theorem token_roundtrip (mac : Str → List Nat) (userID now t : Int)
    (h : t ≤ now + 24 * 60 * 60) :
    parseToken mac t (makeToken mac now userID) = .ok userID := by
  rw [parseToken_makeToken, if_neg (by omega)]

/-- A digest stand-in for witnesses: a keyed function of the signed text. -/
def macHead : Str → List Nat := fun s => [(s.headD 'A').toNat % 256, s.length % 256]

theorem token_roundtrip_witness :
    (100 : Int) ≤ 100 + 24 * 60 * 60 ∧
      parseToken macHead 100 (makeToken macHead 100 7) = .ok 7 :=
  ⟨by decide, token_roundtrip macHead 7 100 100 (by decide)⟩

/-- **C4** Expiry boundary: a token whose stored expiry is `T = now + 24h`
is accepted at `T - 1` and rejected as expired at `T + 1`; more generally
verification of it reports `expired` exactly when the verification instant
is strictly past `T`. -/
theorem expiry_boundary (mac : Str → List Nat) (userID now : Int) :
    parseToken mac (now + 24 * 60 * 60 - 1) (makeToken mac now userID) = .ok userID ∧
    parseToken mac (now + 24 * 60 * 60 + 1) (makeToken mac now userID) = .error "expired" ∧
    ∀ t : Int, (parseToken mac t (makeToken mac now userID) = .error "expired" ↔
      t > now + 24 * 60 * 60) := by
  refine ⟨?_, ?_, ?_⟩
  · rw [parseToken_makeToken, if_neg (by omega)]
  · rw [parseToken_makeToken, if_pos (by omega)]
  · intro t
    rw [parseToken_makeToken]
    by_cases h : t > now + 24 * 60 * 60
    · simp [h]
    · simp [h]

/-- **C5** Verification order: whenever the recomputed signature over the
first segment differs from the second segment, `parseToken` answers
`bad signature` — for every first segment, including ones that are not
valid base64 or not valid JSON, so no claims are ever decoded from an
unverified token. -/
theorem signature_checked_before_decode (mac : Str → List Nat) (t : Int) (p sig : Str)
    (hp : '.' ∉ p) (hs : '.' ∉ sig) (hmis : sign mac p ≠ sig) :
    parseToken mac t (p ++ '.' :: sig) = .error "bad signature" :=
  parseToken_mismatch mac t p sig hp hs hmis

theorem signature_checked_before_decode_witness :
    ('.' ∉ ['!']) ∧ ('.' ∉ ['A']) ∧ sign macHead ['!'] ≠ ['A'] ∧
      b64Decode ['!'] = none ∧
      parseToken macHead 0 (['!'] ++ '.' :: ['A']) = .error "bad signature" :=
  ⟨by decide, by decide, by decide, by decide,
    signature_checked_before_decode macHead 0 ['!'] ['A'] (by decide) (by decide) (by decide)⟩

/-- **C3** (amended) Tamper rejection: altering a single character of an
issued token *to any character other than the separator `.`* makes
`parseToken` reject with a signature failure — unconditionally when the
altered character lies in the encoded-signature segment, and provided the
HMAC digest of the altered text differs from the original digest (no
collision) when it lies in the encoded-claims segment. -/
theorem tamper_rejected (mac : Str → List Nat) (userID now t : Int) (i : Nat) (c : Char) :
    (c ≠ '.' →
     (mac ((claimsSegment now userID).set i c)).map (· % 256) ≠
       (mac (claimsSegment now userID)).map (· % 256) →
     parseToken mac t ((claimsSegment now userID).set i c ++ '.' :: sigSegment mac now userID)
       = .error "bad signature") ∧
    (c ≠ '.' →
     (sigSegment mac now userID).set i c ≠ sigSegment mac now userID →
     parseToken mac t (claimsSegment now userID ++ '.' :: (sigSegment mac now userID).set i c)
       = .error "bad signature") := by
  constructor
  · intro hc hmac
    apply parseToken_mismatch
    · exact not_dot_set _ _ _ (b64Encode_no_dot _) hc
    · exact b64Encode_no_dot _
    · intro heq
      exact hmac (b64Encode_inj_mod _ _ heq)
  · intro hc hne
    apply parseToken_mismatch
    · exact b64Encode_no_dot _
    · exact not_dot_set _ _ _ (b64Encode_no_dot _) hc
    · intro heq
      exact hne heq.symm

theorem tamper_rejected_witness :
    ('Z' : Char) ≠ '.' ∧
    (macHead ((claimsSegment 0 7).set 0 'Z')).map (· % 256) ≠
      (macHead (claimsSegment 0 7)).map (· % 256) ∧
    ('x' : Char) ≠ '.' ∧
    (sigSegment macHead 0 7).set 0 'x' ≠ sigSegment macHead 0 7 ∧
    parseToken macHead 0 ((claimsSegment 0 7).set 0 'Z' ++ '.' :: sigSegment macHead 0 7)
      = .error "bad signature" ∧
    parseToken macHead 0 (claimsSegment 0 7 ++ '.' :: (sigSegment macHead 0 7).set 0 'x')
      = .error "bad signature" :=
  ⟨by decide, by decide, by decide, by decide,
    (tamper_rejected macHead 7 0 0 0 'Z').1 (by decide) (by decide),
    (tamper_rejected macHead 7 0 0 0 'x').2 (by decide) (by decide)⟩

/-- **C3** counterexample to the claim as stated: altering the first
character of the signature segment of an issued token *to the separator
character `.`* is a single-character alteration of that segment, yet
`parseToken` rejects it as `bad token` (malformed shape), not with the
signature failure the claim promises. -/
theorem tamper_dot_counterexample :
    (sigSegment macHead 0 7).set 0 '.' ≠ sigSegment macHead 0 7 ∧
    parseToken macHead 0
      (claimsSegment 0 7 ++ '.' :: (sigSegment macHead 0 7).set 0 '.') = .error "bad token" ∧
    (ParseResult.error "bad token" ≠ ParseResult.error "bad signature") := by
  refine ⟨by decide, by decide, by decide⟩

/-- An Authorization header value `requireAuth` turns away: missing, not
`Bearer `-prefixed, or carrying a token `parseToken` rejects for any
reason (malformed, bad signature, bad payload, or expired). -/
def invalidAuth (mac : Str → List Nat) (now : Int) (auth : Str) : Prop :=
  auth = [] ∨ goHasPrefix auth bearerPrefix = false ∨
    ∃ e, parseToken mac now (goTrimPrefix auth bearerPrefix) = .error e

theorem requireAuth_invalid (mac : Str → List Nat) (now : Int) (auth : Str)
    (h : invalidAuth mac now auth) (next : Int → Resp) :
    requireAuth mac now next auth = ⟨401, "Unauthorized"⟩ := by
  rw [requireAuth]
  by_cases hcond : (auth == [] || !(goHasPrefix auth bearerPrefix)) = true
  · rw [if_pos hcond]
  · rw [if_neg hcond]
    rcases h with h | h | ⟨e, he⟩
    · exact absurd (by simp [h]) hcond
    · exact absurd (by simp [h]) hcond
    · rw [he]

/-- **C6** Uniform unauthorized response: a request with any invalidly
authorized header gets the one fixed `401 Unauthorized` response, two
differently-invalid requests get equal responses, and the wrapped handler
never influences the answer (it is not invoked). -/
theorem requireAuth_uniform (mac1 mac2 : Str → List Nat) (now1 now2 : Int)
    (auth1 auth2 : Str) (next1 next2 : Int → Resp)
    (h1 : invalidAuth mac1 now1 auth1) (h2 : invalidAuth mac2 now2 auth2) :
    requireAuth mac1 now1 next1 auth1 = ⟨401, "Unauthorized"⟩ ∧
    requireAuth mac1 now1 next1 auth1 = requireAuth mac2 now2 next2 auth2 ∧
    ∀ next : Int → Resp, requireAuth mac1 now1 next auth1 = requireAuth mac1 now1 next1 auth1 := by
  refine ⟨requireAuth_invalid _ _ _ h1 next1, ?_, ?_⟩
  · rw [requireAuth_invalid _ _ _ h1 next1, requireAuth_invalid _ _ _ h2 next2]
  · intro next
    rw [requireAuth_invalid _ _ _ h1 next, requireAuth_invalid _ _ _ h1 next1]

def next200 : Int → Resp := fun _ => ⟨200, ""⟩

def next201 : Int → Resp := fun uid => ⟨201, toString uid⟩

theorem requireAuth_uniform_witness :
    invalidAuth macHead 0 [] ∧ invalidAuth macHead 0 ("Bearer x".toList) ∧
    (requireAuth macHead 0 next200 [] = ⟨401, "Unauthorized"⟩ ∧
     requireAuth macHead 0 next200 [] = requireAuth macHead 0 next201 ("Bearer x".toList) ∧
     ∀ next : Int → Resp, requireAuth macHead 0 next [] = requireAuth macHead 0 next200 []) :=
  ⟨Or.inl rfl, Or.inr (Or.inr ⟨"bad token", by decide⟩),
    requireAuth_uniform macHead macHead 0 0 [] ("Bearer x".toList) next200 next201
      (Or.inl rfl) (Or.inr (Or.inr ⟨"bad token", by decide⟩))⟩

/-- **C7** Login indistinguishability: with well-formed credentials, an
email matching no account and a known email with a wrong password produce
the same `401 Invalid email or password` response — byte-identical status
and message. -/
theorem login_indistinguishable (bc : String → String → Bool) (mac : Str → List Nat)
    (now : Int) (users : List UserRow) (req1 req2 : LoginRequest)
    (h1e : req1.Email ≠ "") (h1p : req1.Password ≠ "")
    (h2e : req2.Email ≠ "") (h2p : req2.Password ≠ "")
    (hnone : findUserByEmail users req1.Email = none)
    (u : UserRow) (hsome : findUserByEmail users req2.Email = some u)
    (hbad : bc u.password_hash req2.Password = false) :
    loginHandler bc mac now users (some req1) = ⟨401, "Invalid email or password"⟩ ∧
    loginHandler bc mac now users (some req2) = ⟨401, "Invalid email or password"⟩ ∧
    loginHandler bc mac now users (some req1) = loginHandler bc mac now users (some req2) := by
  have hr1 : loginHandler bc mac now users (some req1) = ⟨401, "Invalid email or password"⟩ := by
    rw [loginHandler, if_neg (by simp [beq_eq_false_iff_ne.mpr h1e,
      beq_eq_false_iff_ne.mpr h1p]), hnone, loginCheck]
  have hr2 : loginHandler bc mac now users (some req2) = ⟨401, "Invalid email or password"⟩ := by
    rw [loginHandler, if_neg (by simp [beq_eq_false_iff_ne.mpr h2e,
      beq_eq_false_iff_ne.mpr h2p]), hsome, loginCheck, if_pos (by simp [hbad])]
  exact ⟨hr1, hr2, by rw [hr1, hr2]⟩

def bcFalse : String → String → Bool := fun _ _ => false

def usersEx : List UserRow := [⟨1, "alice", "alice@example.com", none, "digest"⟩]

theorem login_indistinguishable_witness :
    ("bob@example.com" : String) ≠ "" ∧ ("pw" : String) ≠ "" ∧
    ("alice@example.com" : String) ≠ "" ∧
    findUserByEmail usersEx "bob@example.com" = none ∧
    findUserByEmail usersEx "alice@example.com" =
      some ⟨1, "alice", "alice@example.com", none, "digest"⟩ ∧
    bcFalse "digest" "pw" = false ∧
    (loginHandler bcFalse macHead 0 usersEx (some ⟨"bob@example.com", "pw"⟩) =
        ⟨401, "Invalid email or password"⟩ ∧
      loginHandler bcFalse macHead 0 usersEx (some ⟨"alice@example.com", "pw"⟩) =
        ⟨401, "Invalid email or password"⟩ ∧
      loginHandler bcFalse macHead 0 usersEx (some ⟨"bob@example.com", "pw"⟩) =
        loginHandler bcFalse macHead 0 usersEx (some ⟨"alice@example.com", "pw"⟩)) :=
  ⟨by decide, by decide, by decide, by decide, by decide, by decide,
    login_indistinguishable bcFalse macHead 0 usersEx ⟨"bob@example.com", "pw"⟩
      ⟨"alice@example.com", "pw"⟩ (by decide) (by decide) (by decide) (by decide)
      (by decide) ⟨1, "alice", "alice@example.com", none, "digest"⟩ (by decide) (by decide)⟩

theorem goTrimRight_append (s : Str) (c : Char) : goTrimRight (s ++ [c]) c = goTrimRight s c := by
  simp [goTrimRight, List.dropWhile]

/-- Example configuration: one allowed origin, second slot unset. -/
def cfgEx : CorsConfig := ⟨"https://app.example.com".toList, []⟩

/-- **C8** (amended) Origin normalization: the gate strips **all** trailing
slashes (not just one) from the declared origin and from each configured
origin before exact comparison — appending a trailing slash on either side
never changes its behavior — and under the example configuration
`https://app.example.com/` is allowed (with the permissive headers scoped
to the trimmed origin) while `https://evil.com` is rejected. -/
theorem cors_normalization (cfg : CorsConfig) (m : Method) (o : Str) :
    cors cfg m (o ++ ['/']) = cors cfg m o ∧
    cors ⟨cfg.FRONTEND_ORIGIN ++ ['/'], cfg.FRONTEND_ORIGIN_2⟩ m o = cors cfg m o ∧
    (cors cfgEx .GET ("https://app.example.com/".toList)).2 = .pass ∧
    (cors cfgEx .GET ("https://app.example.com/".toList)).1 =
      corsHeaders ("https://app.example.com".toList) ++ [("Content-Type", "application/json")] ∧
    (cors cfgEx .GET ("https://evil.com".toList)).2 =
      .rejected 403 "CORS blocked for origin: https://evil.com" := by
  refine ⟨?_, ?_, by decide, by decide, by decide⟩
  · simp only [cors, goTrimRight_append]
  · simp only [cors, goTrimRight_append]

/-- The normalization the claim describes — strip a *single* trailing
slash — written out for refutation. -/
def stripOneTrailingSlash (s : Str) : Str :=
  if s.getLast? = some '/' then s.dropLast else s

/-- **C8** counterexample to the claim as stated: the origin
`https://app.example.com//` differs from the configured
`https://app.example.com` even after stripping a single trailing slash
from each, so under the claimed normalization it would be rejected — yet
the gate lets it through, because `strings.TrimRight` removes every
trailing slash. -/
theorem cors_strip_one_counterexample :
    (cors cfgEx .GET ("https://app.example.com//".toList)).2 = .pass ∧
    stripOneTrailingSlash ("https://app.example.com//".toList) ≠
      stripOneTrailingSlash ("https://app.example.com".toList) := by
  refine ⟨by decide, by decide⟩

/-- **C9** (amended) No-origin pass-through: every request that declares no
`Origin` header **and is not a preflight** is forwarded to the next stage
with only the `Content-Type` header — no `Access-Control-*` headers — and
without being rejected. -/
theorem cors_no_origin_pass (cfg : CorsConfig) (m : Method) (h : m ≠ .OPTIONS) :
    cors cfg m [] = ([("Content-Type", "application/json")], .pass) := by
  simp [cors, goTrimRight, corsAllowed, h]

theorem cors_no_origin_pass_witness :
    (Method.GET ≠ Method.OPTIONS) ∧
      cors cfgEx .GET [] = ([("Content-Type", "application/json")], .pass) :=
  ⟨by decide, cors_no_origin_pass cfgEx .GET (by decide)⟩

/-- **C9** counterexample to the claim as stated: an `OPTIONS` request with
no `Origin` header is not forwarded — the gate answers it itself with
`403 CORS blocked for origin: ` (the origin is empty, hence not allowed). -/
theorem cors_no_origin_options_counterexample :
    (cors cfgEx .OPTIONS []).2 = .rejected 403 "CORS blocked for origin: " ∧
    (cors cfgEx .OPTIONS []).2 ≠ .pass := by
  refine ⟨by decide, by decide⟩

/-- The re-`SELECT` after a topic `UPDATE` finds a row exactly when the
original lookup did (the update rewrites rows in place, keeping ids). -/
theorem findTopic_updateTopic (db : DB) (id : Int) (t c : String) :
    (findTopic (updateTopic db id t c) id).isSome = (findTopic db id).isSome := by
  simp only [findTopic, updateTopic]
  rw [List.find?_map]
  have hp : ((fun row => row.id == id) ∘
      (fun row => if row.id == id then { row with title := t, content := c } else row)) =
      (fun (row : TopicRow) => row.id == id) := by
    funext row
    by_cases h : row.id = id <;> simp [h]
  rw [hp]
  cases db.topics.find? (fun row => row.id == id) <;> simp

theorem topicPut_status (db : DB) (uid id : Int) (tb : TopicPutBody) :
    (topicByIDHandler db .PUT uid id (some tb)).1.status = 200 ↔
      uid ≠ 0 ∧ topicOwner db id = some uid := by
  simp only [topicByIDHandler]
  by_cases h0 : uid = 0
  · rw [if_pos h0]
    simp [h0, Resp.status]
  · rw [if_neg h0]
    cases how : topicOwner db id with
    | none => simp [h0, Resp.status]
    | some owner =>
      by_cases heq : uid ≠ owner
      · simp [heq, h0, Resp.status, Ne.symm heq]
      · push_neg at heq
        subst heq
        have hsome : (findTopic db id).isSome := by
          rw [topicOwner] at how
          cases hf : findTopic db id
          · rw [hf] at how
            simp at how
          · simp
        have h2 : (findTopic (updateTopic db id tb.title tb.content) id).isSome := by
          rw [findTopic_updateTopic]
          exact hsome
        cases hf2 : findTopic (updateTopic db id tb.title tb.content) id with
        | none =>
          rw [hf2] at h2
          simp at h2
        | some row2 => simp [hf2, h0, Resp.status]

theorem topicDelete_status (db : DB) (uid id : Int) :
    (topicByIDHandler db .DELETE uid id none).1.status = 204 ↔
      uid ≠ 0 ∧ topicOwner db id = some uid := by
  simp only [topicByIDHandler]
  by_cases h0 : uid = 0
  · rw [if_pos h0]
    simp [h0, Resp.status]
  · rw [if_neg h0]
    cases how : topicOwner db id with
    | none => simp [h0, Resp.status]
    | some owner =>
      by_cases heq : uid ≠ owner
      · simp [heq, h0, Resp.status, Ne.symm heq]
      · push_neg at heq
        subst heq
        simp [h0, Resp.status]

theorem replyPut_status (db : DB) (uid id : Int) (rb : ReplyPutBody)
    (hrb : goTrimSpace rb.content ≠ "") :
    (replyByIDHandler db .PUT uid id (some rb)).1.status = 200 ↔
      uid ≠ 0 ∧ replyOwner db id = some uid := by
  simp only [replyByIDHandler]
  by_cases h0 : uid = 0
  · rw [if_pos h0]
    simp [h0, Resp.status]
  · rw [if_neg h0]
    rw [if_neg hrb]
    cases how : replyOwner db id with
    | none => simp [h0, Resp.status]
    | some owner =>
      by_cases heq : uid ≠ owner
      · simp [heq, h0, Resp.status, Ne.symm heq]
      · push_neg at heq
        subst heq
        simp [h0, Resp.status]

theorem replyDelete_status (db : DB) (uid id : Int) :
    (replyByIDHandler db .DELETE uid id none).1.status = 204 ↔
      uid ≠ 0 ∧ replyOwner db id = some uid := by
  simp only [replyByIDHandler]
  by_cases h0 : uid = 0
  · rw [if_pos h0]
    simp [h0, Resp.status]
  · rw [if_neg h0]
    cases how : replyOwner db id with
    | none => simp [h0, Resp.status]
    | some owner =>
      by_cases heq : uid ≠ owner
      · simp [heq, h0, Resp.status, Ne.symm heq]
      · push_neg at heq
        subst heq
        simp [h0, Resp.status]

/-- **C2** Ownership policy: a mutating request on a topic or reply (with a
well-formed body where one is required) succeeds if and only if the
authenticated subject id is non-zero and equals the resource's recorded
owner id.  In particular a zero subject against a zero owner is turned
away (at the 401 gate, before the owner is even read), and every non-owner
— including the unauthenticated zero subject — is denied. -/
theorem ownership_policy (db : DB) (uid id : Int) (tb : TopicPutBody) (rb : ReplyPutBody)
    (hrb : goTrimSpace rb.content ≠ "") :
    ((topicByIDHandler db .PUT uid id (some tb)).1.status = 200 ↔
      uid ≠ 0 ∧ topicOwner db id = some uid) ∧
    ((topicByIDHandler db .DELETE uid id none).1.status = 204 ↔
      uid ≠ 0 ∧ topicOwner db id = some uid) ∧
    ((replyByIDHandler db .PUT uid id (some rb)).1.status = 200 ↔
      uid ≠ 0 ∧ replyOwner db id = some uid) ∧
    ((replyByIDHandler db .DELETE uid id none).1.status = 204 ↔
      uid ≠ 0 ∧ replyOwner db id = some uid) :=
  ⟨topicPut_status db uid id tb, topicDelete_status db uid id,
    replyPut_status db uid id rb hrb, replyDelete_status db uid id⟩

/-- A store with one topic and one reply, both owned by subject 9. -/
def dbEx : DB := ⟨[⟨1, "t", "body", 9⟩], [⟨1, 1, "r", 9⟩]⟩

theorem ownership_policy_witness :
    (goTrimSpace "hello" ≠ "") ∧
    (((topicByIDHandler dbEx .PUT 7 1 (some ⟨"x", "y"⟩)).1.status = 200 ↔
        (7 : Int) ≠ 0 ∧ topicOwner dbEx 1 = some 7) ∧
      ((topicByIDHandler dbEx .DELETE 7 1 none).1.status = 204 ↔
        (7 : Int) ≠ 0 ∧ topicOwner dbEx 1 = some 7) ∧
      ((replyByIDHandler dbEx .PUT 7 1 (some ⟨"hello"⟩)).1.status = 200 ↔
        (7 : Int) ≠ 0 ∧ replyOwner dbEx 1 = some 7) ∧
      ((replyByIDHandler dbEx .DELETE 7 1 none).1.status = 204 ↔
        (7 : Int) ≠ 0 ∧ replyOwner dbEx 1 = some 7)) :=
  ⟨by decide, ownership_policy dbEx 7 1 ⟨"x", "y"⟩ ⟨"hello"⟩ (by decide)⟩

/-- **C10** Mutation atomicity on denial: whenever a `PUT` or `DELETE` on a
topic or reply is turned away — zero subject id, resource not found, or
subject not the owner — the handler returns the store unchanged: the
ownership gate sits in front of the `UPDATE`/`DELETE` statement. -/
theorem mutation_atomic_on_denial (db : DB) (uid id : Int)
    (tb : Option TopicPutBody) (rb : Option ReplyPutBody) :
    (uid = 0 ∨ topicOwner db id ≠ some uid →
      (topicByIDHandler db .PUT uid id tb).2 = db ∧
      (topicByIDHandler db .DELETE uid id none).2 = db) ∧
    (uid = 0 ∨ replyOwner db id ≠ some uid →
      (replyByIDHandler db .PUT uid id rb).2 = db ∧
      (replyByIDHandler db .DELETE uid id none).2 = db) := by
  constructor
  · intro h
    simp only [topicByIDHandler]
    by_cases h0 : uid = 0
    · simp [h0]
    · have hown : topicOwner db id ≠ some uid := h.resolve_left h0
      rw [if_neg h0, if_neg h0]
      constructor
      · cases tb with
        | none => rfl
        | some payload =>
          cases how : topicOwner db id with
          | none => rfl
          | some owner =>
            have heq : uid ≠ owner := fun he => hown (by rw [how, he])
            simp [heq]
      · cases how : topicOwner db id with
        | none => rfl
        | some owner =>
          have heq : uid ≠ owner := fun he => hown (by rw [how, he])
          simp [heq]
  · intro h
    simp only [replyByIDHandler]
    by_cases h0 : uid = 0
    · simp [h0]
    · have hown : replyOwner db id ≠ some uid := h.resolve_left h0
      rw [if_neg h0, if_neg h0]
      constructor
      · cases rb with
        | none => rfl
        | some payload =>
          by_cases htrim : goTrimSpace payload.content = ""
          · simp [htrim]
          · cases how : replyOwner db id with
            | none => simp [htrim]
            | some owner =>
              have heq : uid ≠ owner := fun he => hown (by rw [how, he])
              simp [htrim, heq]
      · cases how : replyOwner db id with
        | none => rfl
        | some owner =>
          have heq : uid ≠ owner := fun he => hown (by rw [how, he])
          simp [heq]

theorem mutation_atomic_on_denial_witness :
    ((7 : Int) = 0 ∨ topicOwner dbEx 1 ≠ some 7) ∧
    ((7 : Int) = 0 ∨ replyOwner dbEx 1 ≠ some 7) ∧
    ((topicByIDHandler dbEx .PUT 7 1 (some ⟨"x", "y"⟩)).2 = dbEx ∧
      (topicByIDHandler dbEx .DELETE 7 1 none).2 = dbEx) ∧
    ((replyByIDHandler dbEx .PUT 7 1 (some ⟨"hello"⟩)).2 = dbEx ∧
      (replyByIDHandler dbEx .DELETE 7 1 none).2 = dbEx) :=
  ⟨Or.inr (by decide), Or.inr (by decide),
    (mutation_atomic_on_denial dbEx 7 1 (some ⟨"x", "y"⟩) (some ⟨"hello"⟩)).1
      (Or.inr (by decide)),
    (mutation_atomic_on_denial dbEx 7 1 (some ⟨"x", "y"⟩) (some ⟨"hello"⟩)).2
      (Or.inr (by decide))⟩

end Webby
